import Mathlib

/-!
Verification of the core logic of the polar-plant EC dashboard
(`src/main.py`): the Unicode-normalization-tolerant file resolver
(`find_file_by_normalized_name`) and the per-school aggregation pipeline
(tab1 `overview_rows`, tab2 `avg_rows`, tab3 `summary` and `best_row`).

The embedding is shallow: directory listings become lists of entries,
pandas data frames become lists of observation records with rational
fields, Python dicts keyed by school become association lists, and the
`KeyError` raised by `EC_MAP[school]` becomes `Except.error`.  The two
Unicode normalization functions (`unicodedata.normalize("NFC", ·)` and
`unicodedata.normalize("NFD", ·)`) are external library code, so the
resolver is parametrised by a pair of functions `nfc nfd : α → α`; a small
concrete alphabet with a toy composed/decomposed pair instantiates them in
the witnesses.
-/

namespace Dashboard

/-- A directory entry as seen by `base_dir.iterdir()`: a name together with
the `p.is_file()` flag.  Entries that are not regular files are skipped by
the resolver. -/
structure DirEntry (α : Type) where
  name : α
  is_file : Bool
deriving DecidableEq

/-- The body of the `for p in base_dir.iterdir()` loop of
`find_file_by_normalized_name` (src/main.py lines 59-66), with the two
precomputed targets `target_nfc` and `target_nfd` passed in: skip entries
that are not regular files, return the first entry whose NFC form equals
`target_nfc` or whose NFD form equals `target_nfd`, and return `none`
when the listing is exhausted. -/
def find_loop [DecidableEq α] (nfc nfd : α → α) (target_nfc target_nfd : α) :
    List (DirEntry α) → Option (DirEntry α)
  | [] => none
  | p :: rest =>
    if p.is_file = false then find_loop nfc nfd target_nfc target_nfd rest
    else if nfc p.name = target_nfc ∨ nfd p.name = target_nfd then some p
    else find_loop nfc nfd target_nfc target_nfd rest

/-- `find_file_by_normalized_name` (src/main.py lines 55-66): compute the
NFC and NFD forms of `target_name` and scan the directory listing with
`find_loop`.  `none` models the Python `None` (NotFound) result. -/
def find_file_by_normalized_name [DecidableEq α] (nfc nfd : α → α)
    (base_dir : List (DirEntry α)) (target_name : α) : Option (DirEntry α) :=
  find_loop nfc nfd (nfc target_name) (nfd target_name) base_dir

/-- A tiny concrete alphabet standing in for Unicode code points in the
witnesses: `comp` is a precomposed Hangul syllable, `lead`/`vowel` are the
two jamo of its canonical decomposition, and `ch n` is any other
character. -/
inductive TChar : Type where
  | comp : TChar
  | lead : TChar
  | vowel : TChar
  | ch : Nat → TChar
deriving DecidableEq

/-- Strings over the toy alphabet. -/
abbrev TStr := List TChar

/-- Toy canonical decomposition: expand every precomposed syllable into its
jamo pair, leave everything else alone. -/
def nfdToy (s : TStr) : TStr :=
  s.flatMap fun c =>
    match c with
    | .comp => [.lead, .vowel]
    | c => [c]

/-- Toy canonical composition: combine every adjacent jamo pair back into
the precomposed syllable, leave everything else alone. -/
def nfcToy : TStr → TStr
  | [] => []
  | .lead :: .vowel :: rest => .comp :: nfcToy rest
  | c :: rest => c :: nfcToy rest

/-- The logical name of the scenarios, a toy stand-in for
"학교_데이터.csv" in composed spelling: two syllables around an
underscore-like character, then an extension. -/
def sampleName : TStr := [.comp, .ch 95, .comp, .ch 46, .ch 99, .ch 115, .ch 118]

/-- If some regular-file entry of the listing matches on the NFC side,
the loop finds an entry. -/
theorem find_loop_isSome_of_nfc [DecidableEq α] (nfc nfd : α → α)
    (tnfc tnfd : α) (dir : List (DirEntry α))
    (h : ∃ e ∈ dir, e.is_file = true ∧ nfc e.name = tnfc) :
    (find_loop nfc nfd tnfc tnfd dir).isSome = true := by
  induction dir with
  | nil => obtain ⟨e, he, _⟩ := h; cases he
  | cons p rest ih =>
    obtain ⟨e, he, hfile, hname⟩ := h
    unfold find_loop
    by_cases hp : p.is_file = false
    · rw [if_pos hp]
      rcases List.mem_cons.mp he with rfl | he'
      · simp [hfile] at hp
      · exact ih ⟨e, he', hfile, hname⟩
    · rw [if_neg hp]
      by_cases hm : nfc p.name = tnfc ∨ nfd p.name = tnfd
      · rw [if_pos hm]; rfl
      · rw [if_neg hm]
        rcases List.mem_cons.mp he with rfl | he'
        · exact absurd (Or.inl hname) hm
        · exact ih ⟨e, he', hfile, hname⟩

/-- C1.  If the directory contains a regular file whose NFC-normalized
name equals the NFC-normalized form of the logical name `n`, then the
resolver returns `some` entry, not `none` (NotFound). -/
theorem resolve_nfc_exists [DecidableEq α] (nfc nfd : α → α)
    (base_dir : List (DirEntry α)) (n : α)
    (h : ∃ e ∈ base_dir, e.is_file = true ∧ nfc e.name = nfc n) :
    (find_file_by_normalized_name nfc nfd base_dir n).isSome = true :=
  find_loop_isSome_of_nfc nfc nfd (nfc n) (nfd n) base_dir h

/-- Witness for C1: a directory whose single regular file carries the
decomposed spelling of `sampleName` still NFC-matches it, and the
resolver succeeds. -/
theorem resolve_nfc_exists_witness :
    (find_file_by_normalized_name nfcToy nfdToy
      [⟨nfdToy sampleName, true⟩] sampleName).isSome = true :=
  resolve_nfc_exists nfcToy nfdToy [⟨nfdToy sampleName, true⟩] sampleName
    ⟨⟨nfdToy sampleName, true⟩, by decide, rfl, by decide⟩

/-- C2.  Normalization independence of the resolver.  Under the canonical
facts relating the two normal forms of `n` (re-normalizing either form in
either direction is stable), resolving the NFC encoding of `n` and
resolving the NFD encoding of `n` give the same result; and a directory
containing only a regular file spelled in the decomposed (NFD) form of
`n` resolves `n` to that very file. -/
theorem resolve_norm_independent [DecidableEq α] (nfc nfd : α → α)
    (base_dir : List (DirEntry α)) (n : α)
    (h₁ : nfc (nfc n) = nfc n) (h₂ : nfd (nfc n) = nfd n)
    (h₃ : nfc (nfd n) = nfc n) (h₄ : nfd (nfd n) = nfd n) :
    find_file_by_normalized_name nfc nfd base_dir (nfc n) =
      find_file_by_normalized_name nfc nfd base_dir (nfd n) ∧
    ∀ e : DirEntry α, base_dir = [e] → e.is_file = true → e.name = nfd n →
      find_file_by_normalized_name nfc nfd base_dir n = some e := by
  constructor
  · unfold find_file_by_normalized_name
    rw [h₁, h₂, h₃, h₄]
  · intro e hdir hfile hname
    subst hdir
    unfold find_file_by_normalized_name find_loop
    rw [hfile]
    simp only [Bool.true_eq_false, if_false]
    rw [if_pos (Or.inr (by rw [hname, h₄]))]

/-- Witness for C2 in the toy alphabet: for the composed logical name
`sampleName` and a directory holding only its decomposed spelling, the
NFC and NFD encodings of the name resolve identically, and the plain name
resolves to the decomposed-form file. -/
theorem resolve_norm_independent_witness :
    (find_file_by_normalized_name nfcToy nfdToy [⟨nfdToy sampleName, true⟩]
        (nfcToy sampleName) =
      find_file_by_normalized_name nfcToy nfdToy [⟨nfdToy sampleName, true⟩]
        (nfdToy sampleName)) ∧
    find_file_by_normalized_name nfcToy nfdToy [⟨nfdToy sampleName, true⟩]
        sampleName = some ⟨nfdToy sampleName, true⟩ := by
  have h := resolve_norm_independent nfcToy nfdToy
    [⟨nfdToy sampleName, true⟩] sampleName
    (by decide) (by decide) (by decide) (by decide)
  exact ⟨h.1, h.2 ⟨nfdToy sampleName, true⟩ rfl rfl rfl⟩

/-- If no regular-file entry matches on either side, the loop returns
`none`. -/
theorem find_loop_eq_none [DecidableEq α] (nfc nfd : α → α)
    (tnfc tnfd : α) (dir : List (DirEntry α))
    (h : ∀ e ∈ dir, e.is_file = true → nfc e.name ≠ tnfc ∧ nfd e.name ≠ tnfd) :
    find_loop nfc nfd tnfc tnfd dir = none := by
  induction dir with
  | nil => rfl
  | cons p rest ih =>
    unfold find_loop
    by_cases hp : p.is_file = false
    · rw [if_pos hp]
      exact ih fun e he => h e (List.mem_cons_of_mem p he)
    · rw [if_neg hp]
      have hpf : p.is_file = true := by simpa using hp
      obtain ⟨hn₁, hn₂⟩ := h p (List.mem_cons_self p rest) hpf
      rw [if_neg (not_or.mpr ⟨hn₁, hn₂⟩)]
      exact ih fun e he => h e (List.mem_cons_of_mem p he)

/-- C3.  When no regular-file entry of the directory matches the logical
name under either the NFC or the NFD comparison, the resolver returns
the NotFound value `none`.  (The embedded resolver is a total function,
so returning `none` is a normal return: no exception escapes.) -/
theorem resolve_no_match_none [DecidableEq α] (nfc nfd : α → α)
    (base_dir : List (DirEntry α)) (n : α)
    (h : ∀ e ∈ base_dir, e.is_file = true →
      nfc e.name ≠ nfc n ∧ nfd e.name ≠ nfd n) :
    find_file_by_normalized_name nfc nfd base_dir n = none :=
  find_loop_eq_none nfc nfd (nfc n) (nfd n) base_dir h

/-- Witness for C3: a directory holding one unrelated regular file and
one non-file entry yields `none` for `sampleName`. -/
theorem resolve_no_match_none_witness :
    find_file_by_normalized_name nfcToy nfdToy
      [⟨[TChar.ch 120], true⟩, ⟨sampleName, false⟩] sampleName = none :=
  resolve_no_match_none nfcToy nfdToy
    [⟨[TChar.ch 120], true⟩, ⟨sampleName, false⟩] sampleName (by decide)

/-- Any entry the loop returns was accepted after the `is_file` guard. -/
theorem find_loop_only_regular [DecidableEq α] (nfc nfd : α → α)
    (tnfc tnfd : α) (dir : List (DirEntry α)) (e : DirEntry α)
    (h : find_loop nfc nfd tnfc tnfd dir = some e) : e.is_file = true := by
  induction dir with
  | nil => cases h
  | cons p rest ih =>
    unfold find_loop at h
    by_cases hp : p.is_file = false
    · rw [if_pos hp] at h; exact ih h
    · rw [if_neg hp] at h
      by_cases hm : nfc p.name = tnfc ∨ nfd p.name = tnfd
      · rw [if_pos hm] at h
        injection h with h'
        subst h'
        simpa using hp
      · rw [if_neg hm] at h; exact ih h

/-- C10.  The resolver only ever returns a regular file: whatever entry it
returns has `is_file = true`, so a non-file directory entry is never the
result even when its name matches. -/
theorem resolve_only_regular [DecidableEq α] (nfc nfd : α → α)
    (base_dir : List (DirEntry α)) (n : α) (e : DirEntry α)
    (h : find_file_by_normalized_name nfc nfd base_dir n = some e) :
    e.is_file = true :=
  find_loop_only_regular nfc nfd (nfc n) (nfd n) base_dir e h

/-- Witness for C10: a non-file entry whose name matches `sampleName`
exactly comes first in the listing, yet the resolver skips it and returns
the regular file behind it, and that result satisfies `is_file`. -/
theorem resolve_only_regular_witness :
    find_file_by_normalized_name nfcToy nfdToy
        [⟨sampleName, false⟩, ⟨sampleName, true⟩] sampleName =
      some ⟨sampleName, true⟩ ∧
    (DirEntry.mk sampleName true).is_file = true :=
  ⟨by decide,
    resolve_only_regular nfcToy nfdToy
      [⟨sampleName, false⟩, ⟨sampleName, true⟩] sampleName
      ⟨sampleName, true⟩ (by decide)⟩

/-! ## Aggregation pipeline

One environmental observation per CSV row and one growth observation per
XLSX row, with the numeric columns as rationals (the ideal arithmetic the
spec's "arithmetic mean" denotes).  A loaded dataset — `env_data` or
`growth_data` in src/main.py — is an association list from the school key
to the rows of that school's frame, mirroring the Python dict built by
the loaders (dict keys are unique and each frame's `school` column holds
its own key). -/

/-- One row of an environmental CSV: columns `temperature`, `humidity`,
`ph`, `ec` (the `time` column is never aggregated and is omitted). -/
structure EnvObs where
  temperature : ℚ
  humidity : ℚ
  ph : ℚ
  ec : ℚ
deriving DecidableEq

/-- One row of a growth sheet: `생중량(g)` (fresh weight), `잎 수(장)`
(leaf count), `지상부 길이(mm)` (shoot length). -/
structure GrowthObs where
  fresh_weight : ℚ
  leaf_count : ℚ
  shoot_length : ℚ
deriving DecidableEq

/-- `Series.mean()`: sum of the values divided by their number. -/
def mean (l : List ℚ) : ℚ :=
  l.sum / (l.length : ℚ)

/-- The fixed school → target-EC mapping `EC_MAP` of src/main.py
(lines 80-85), as an association list. -/
def EC_MAP : List (String × ℚ) :=
  [("송도고", 1), ("하늘고", 2), ("아라고", 4), ("동산고", 8)]

/-- Python dict lookup `m.get(k)`: `none` when the key is absent. -/
def dict_get (m : List (String × ℚ)) (s : String) : Option ℚ :=
  match m with
  | [] => none
  | (k, v) :: rest => if k = s then some v else dict_get rest s

/-- Python dict subscript `m[k]`: the value when the key is present,
a `KeyError` carrying the key otherwise. -/
def dict_index (m : List (String × ℚ)) (s : String) : Except String ℚ :=
  match dict_get m s with
  | some v => Except.ok v
  | none => Except.error s

/-- One row of the tab2 per-school environmental summary `avg_rows`
(src/main.py lines 178-189). -/
structure Tab2Row where
  school : String
  temperature : ℚ
  humidity : ℚ
  ph : ℚ
  ec : ℚ
  target_ec : ℚ
deriving DecidableEq

/-- One row of the tab3 per-school growth summary `summary`
(src/main.py lines 234-243). -/
structure Tab3Row where
  school : String
  ec : ℚ
  fresh_weight : ℚ
  leaf_count : ℚ
  shoot_length : ℚ
  count : Nat
deriving DecidableEq

/-- One row of the tab1 overview table `overview_rows`
(src/main.py lines 150-159): school name (`학교명`), EC target
(`EC 목표`, via `EC_MAP.get`, hence optional), head count (`개체수`). -/
structure OverviewRow where
  school : String
  ec_target : Option ℚ
  count : Nat
deriving DecidableEq

/-- The dict literal appended per school by the tab2 loop: column-wise
means of the school's frame plus `target_ec = EC_MAP[school]` (the
looked-up value `t`). -/
def mkTab2Row (school : String) (df : List EnvObs) (t : ℚ) : Tab2Row :=
  { school := school
    temperature := mean (df.map (·.temperature))
    humidity := mean (df.map (·.humidity))
    ph := mean (df.map (·.ph))
    ec := mean (df.map (·.ec))
    target_ec := t }

/-- The dict literal appended per school by the tab3 loop: `EC =
EC_MAP[school]` (the looked-up value `t`), column-wise means of the
school's frame, and the row count. -/
def mkTab3Row (school : String) (df : List GrowthObs) (t : ℚ) : Tab3Row :=
  { school := school
    ec := t
    fresh_weight := mean (df.map (·.fresh_weight))
    leaf_count := mean (df.map (·.leaf_count))
    shoot_length := mean (df.map (·.shoot_length))
    count := df.length }

/-- The shared skeleton of the tab2 and tab3 summary loops: for each
`(school, df)` of the dataset in order, look up `EC_MAP[school]` —
propagating the `KeyError` as `Except.error` — and append the row built
by `mk`.  `avg_rows` and `summary` are its two instances. -/
def build_rows {β ρ : Type} (m : List (String × ℚ))
    (mk : String → List β → ℚ → ρ) :
    List (String × List β) → Except String (List ρ)
  | [] => Except.ok []
  | (school, df) :: rest =>
    match dict_index m school with
    | Except.error e => Except.error e
    | Except.ok t =>
      match build_rows m mk rest with
      | Except.error e => Except.error e
      | Except.ok rows => Except.ok (mk school df t :: rows)

/-- The tab2 loop over `env_data.items()` (src/main.py lines 178-189),
with the concentration map as a parameter (the app applies it to
`EC_MAP`). -/
def avg_rows (m : List (String × ℚ)) (env_data : List (String × List EnvObs)) :
    Except String (List Tab2Row) :=
  build_rows m mkTab2Row env_data

/-- The tab3 loop over `growth_data.items()` (src/main.py lines 234-243),
with the concentration map as a parameter (the app applies it to
`EC_MAP`). -/
def summary (m : List (String × ℚ))
    (growth_data : List (String × List GrowthObs)) :
    Except String (List Tab3Row) :=
  build_rows m mkTab3Row growth_data

/-- The tab1 loop over `growth_data.items()` (src/main.py lines 150-159):
`EC_MAP.get(school)` never raises, so this is a total map. -/
def overview_rows (m : List (String × ℚ))
    (growth_data : List (String × List GrowthObs)) : List OverviewRow :=
  growth_data.map fun g => { school := g.1, ec_target := dict_get m g.1, count := g.2.length }

/-- `pd.concat(data.values())` for frames whose `school` column was set to
their dict key at load time: the flat table of (school, row) pairs. -/
def concat_tables {β : Type} (data : List (String × List β)) : List (String × β) :=
  data.flatMap fun g => g.2.map fun r => (g.1, r)

/-- Unfolding equation for `build_rows` on a cons cell. -/
theorem build_rows_cons {β ρ : Type} (m : List (String × ℚ))
    (mk : String → List β → ℚ → ρ) (k : String) (df : List β)
    (rest : List (String × List β)) :
    build_rows m mk ((k, df) :: rest) =
      match dict_index m k with
      | Except.error e => Except.error e
      | Except.ok t =>
        match build_rows m mk rest with
        | Except.error e => Except.error e
        | Except.ok rows => Except.ok (mk k df t :: rows) := rfl

/-- Every row of a successful `build_rows` run comes from one dataset
entry: its school's frame and the looked-up concentration. -/
theorem build_rows_ok_mem {β ρ : Type} (m : List (String × ℚ))
    (mk : String → List β → ℚ → ρ) (data : List (String × List β))
    (rows : List ρ) (h : build_rows m mk data = Except.ok rows)
    (o : ρ) (ho : o ∈ rows) :
    ∃ k df t, (k, df) ∈ data ∧ dict_get m k = some t ∧ o = mk k df t := by
  induction data generalizing rows with
  | nil =>
    unfold build_rows at h
    injection h with h
    subst h
    cases ho
  | cons g rest ih =>
    obtain ⟨k', df'⟩ := g
    rw [build_rows_cons] at h
    cases hdi : dict_index m k' with
    | error e =>
      simp only [hdi] at h
      exact Except.noConfusion h
    | ok t =>
      simp only [hdi] at h
      cases hbr : build_rows m mk rest with
      | error e =>
        simp only [hbr] at h
        exact Except.noConfusion h
      | ok rs =>
        simp only [hbr] at h
        injection h with h
        subst h
        rcases List.mem_cons.mp ho with rfl | ho'
        · refine ⟨k', df', t, List.mem_cons_self _ _, ?_, rfl⟩
          unfold dict_index at hdi
          cases hdg : dict_get m k' <;> rw [hdg] at hdi
          · cases hdi
          · injection hdi with hdi
            rw [hdi]
        · obtain ⟨k, df, t', hmem, hg, heq⟩ := ih rs hbr ho'
          exact ⟨k, df, t', List.mem_cons_of_mem _ hmem, hg, heq⟩

/-- A dataset entry whose school is absent from the map makes the whole
`build_rows` run fail with a key-lookup error. -/
theorem build_rows_error {β ρ : Type} (m : List (String × ℚ))
    (mk : String → List β → ℚ → ρ) (data : List (String × List β))
    (k : String) (df : List β)
    (hmem : (k, df) ∈ data) (hnone : dict_get m k = none) :
    ∃ e, build_rows m mk data = Except.error e := by
  induction data with
  | nil => cases hmem
  | cons g rest ih =>
    obtain ⟨k', df'⟩ := g
    cases hdi : dict_index m k' with
    | error e =>
      exact ⟨e, by rw [build_rows_cons, hdi]⟩
    | ok t =>
      rcases List.mem_cons.mp hmem with heq | hmem'
      · injection heq with h1 h2
        subst h1
        unfold dict_index at hdi
        rw [hnone] at hdi
        cases hdi
      · obtain ⟨e, he⟩ := ih hmem'
        exact ⟨e, by rw [build_rows_cons, hdi, he]⟩

/-- Unfolding equation for `concat_tables` on a cons cell. -/
theorem concat_cons {β : Type} (g : String × List β)
    (rest : List (String × List β)) :
    concat_tables (g :: rest) =
      (g.2.map fun r => (g.1, r)) ++ concat_tables rest := by
  unfold concat_tables
  rw [List.flatMap_cons]

/-- Rows tagged with the key all pass the key filter. -/
theorem tag_filter_eq {β : Type} (k : String) (df : List β) :
    (df.map fun r => (k, r)).filter (fun r => r.1 == k) =
      df.map fun r => (k, r) := by
  induction df with
  | nil => rfl
  | cons r rest ih => simp [List.filter_cons, ih]

/-- Rows tagged with a different key all fail the key filter. -/
theorem tag_filter_ne {β : Type} {k k' : String} (h : k' ≠ k) (df : List β) :
    (df.map fun r => (k', r)).filter (fun r => r.1 == k) = [] := by
  induction df with
  | nil => rfl
  | cons r rest ih => simp [List.filter_cons, ih, h]

/-- If the key occurs nowhere in the dataset, the key filter of the flat
table is empty. -/
theorem concat_filter_not_mem {β : Type} (data : List (String × List β))
    (k : String) (h : k ∉ data.map Prod.fst) :
    (concat_tables data).filter (fun r => r.1 == k) = [] := by
  induction data with
  | nil => rfl
  | cons g rest ih =>
    rw [List.map_cons, List.mem_cons] at h
    push_neg at h
    rw [concat_cons, List.filter_append, tag_filter_ne (fun he => h.1 he.symm),
      ih h.2, List.nil_append]

/-- With unique dict keys, filtering the flat table by the key of one
dataset entry returns exactly that entry's rows, tagged. -/
theorem concat_filter_key {β : Type} (data : List (String × List β))
    (k : String) (df : List β)
    (hnd : (data.map Prod.fst).Nodup) (hmem : (k, df) ∈ data) :
    (concat_tables data).filter (fun r => r.1 == k) =
      df.map fun r => (k, r) := by
  induction data with
  | nil => cases hmem
  | cons g rest ih =>
    rw [List.map_cons, List.nodup_cons] at hnd
    rcases List.mem_cons.mp hmem with heq | hmem'
    · subst heq
      rw [concat_cons, List.filter_append, tag_filter_eq,
        concat_filter_not_mem rest k hnd.1, List.append_nil]
    · have hk : k ∈ rest.map Prod.fst :=
        List.mem_map.mpr ⟨(k, df), hmem', rfl⟩
      have hne : g.1 ≠ k := fun he => hnd.1 (he ▸ hk)
      rw [concat_cons, List.filter_append, tag_filter_ne hne,
        List.nil_append]
      exact ih hnd.2 hmem'

/-- C4.  Each per-school summary value is the arithmetic mean of its
column over exactly the rows of the flat table whose school equals that
row's key: the four environmental columns of the tab2 summary and the
three growth columns of the tab3 summary. -/
theorem group_means_correct (m : List (String × ℚ))
    (env_data : List (String × List EnvObs))
    (growth_data : List (String × List GrowthObs))
    (henv : (env_data.map Prod.fst).Nodup)
    (hgr : (growth_data.map Prod.fst).Nodup)
    (rows2 : List Tab2Row) (rows3 : List Tab3Row)
    (h2 : avg_rows m env_data = Except.ok rows2)
    (h3 : summary m growth_data = Except.ok rows3) :
    (∀ o ∈ rows2,
      o.temperature = mean (((concat_tables env_data).filter
        (fun r => r.1 == o.school)).map fun r => r.2.temperature) ∧
      o.humidity = mean (((concat_tables env_data).filter
        (fun r => r.1 == o.school)).map fun r => r.2.humidity) ∧
      o.ph = mean (((concat_tables env_data).filter
        (fun r => r.1 == o.school)).map fun r => r.2.ph) ∧
      o.ec = mean (((concat_tables env_data).filter
        (fun r => r.1 == o.school)).map fun r => r.2.ec)) ∧
    (∀ o ∈ rows3,
      o.fresh_weight = mean (((concat_tables growth_data).filter
        (fun r => r.1 == o.school)).map fun r => r.2.fresh_weight) ∧
      o.leaf_count = mean (((concat_tables growth_data).filter
        (fun r => r.1 == o.school)).map fun r => r.2.leaf_count) ∧
      o.shoot_length = mean (((concat_tables growth_data).filter
        (fun r => r.1 == o.school)).map fun r => r.2.shoot_length)) := by
  constructor
  · intro o ho
    obtain ⟨k, df, t, hmem, _, rfl⟩ :=
      build_rows_ok_mem m mkTab2Row env_data rows2 h2 o ho
    have hsch : (mkTab2Row k df t).school = k := rfl
    rw [hsch, concat_filter_key env_data k df henv hmem]
    simp [mkTab2Row, List.map_map, Function.comp_def]
  · intro o ho
    obtain ⟨k, df, t, hmem, _, rfl⟩ :=
      build_rows_ok_mem m mkTab3Row growth_data rows3 h3 o ho
    have hsch : (mkTab3Row k df t).school = k := rfl
    rw [hsch, concat_filter_key growth_data k df hgr hmem]
    simp [mkTab3Row, List.map_map, Function.comp_def]

/-- Sample environmental observation (all columns 1). -/
def envA : EnvObs := ⟨1, 1, 1, 1⟩

/-- Sample environmental observation (all columns 3). -/
def envB : EnvObs := ⟨3, 3, 3, 3⟩

/-- Sample growth observation: 10 g, 4 leaves, 100 mm. -/
def grA : GrowthObs := ⟨10, 4, 100⟩

/-- Sample loaded environmental dataset: one school, two rows. -/
def sample_env : List (String × List EnvObs) := [("하늘고", [envA, envB])]

/-- Sample loaded growth dataset: one school, one row. -/
def sample_growth : List (String × List GrowthObs) := [("하늘고", [grA])]

/-- The tab2 summary row of `sample_env`: means 2, target EC 2. -/
def sampleTab2 : Tab2Row := ⟨"하늘고", 2, 2, 2, 2, 2⟩

/-- The tab3 summary row of `sample_growth`. -/
def sampleTab3 : Tab3Row := ⟨"하늘고", 2, 10, 4, 100, 1⟩

/-- Witness for C4 at the sample datasets: the summary values agree with
the key-filtered column means of the flat tables. -/
theorem group_means_correct_witness :
    (sampleTab2.temperature = mean (((concat_tables sample_env).filter
        (fun r => r.1 == sampleTab2.school)).map fun r => r.2.temperature) ∧
      sampleTab2.humidity = mean (((concat_tables sample_env).filter
        (fun r => r.1 == sampleTab2.school)).map fun r => r.2.humidity) ∧
      sampleTab2.ph = mean (((concat_tables sample_env).filter
        (fun r => r.1 == sampleTab2.school)).map fun r => r.2.ph) ∧
      sampleTab2.ec = mean (((concat_tables sample_env).filter
        (fun r => r.1 == sampleTab2.school)).map fun r => r.2.ec)) ∧
    (sampleTab3.fresh_weight = mean (((concat_tables sample_growth).filter
        (fun r => r.1 == sampleTab3.school)).map fun r => r.2.fresh_weight) ∧
      sampleTab3.leaf_count = mean (((concat_tables sample_growth).filter
        (fun r => r.1 == sampleTab3.school)).map fun r => r.2.leaf_count) ∧
      sampleTab3.shoot_length = mean (((concat_tables sample_growth).filter
        (fun r => r.1 == sampleTab3.school)).map fun r => r.2.shoot_length)) := by
  have h := group_means_correct EC_MAP sample_env sample_growth
    (by simp [sample_env]) (by simp [sample_growth])
    [sampleTab2] [sampleTab3]
    (by simp [avg_rows, build_rows, dict_index, dict_get, EC_MAP,
      mkTab2Row, mean, sample_env, sampleTab2, envA, envB]
        ; norm_num)
    (by simp [summary, build_rows, dict_index, dict_get, EC_MAP,
      mkTab3Row, mean, sample_growth, sampleTab3, grA])
  exact ⟨h.1 sampleTab2 (by simp), h.2 sampleTab3 (by simp)⟩

/-- Two dataset entries with the same school key whose rows are a
permutation of each other. -/
def GroupPerm {β : Type} (a b : String × List β) : Prop :=
  a.1 = b.1 ∧ a.2.Perm b.2

/-- The arithmetic mean is invariant under permutation of the values. -/
theorem mean_perm {l₁ l₂ : List ℚ} (h : l₁.Perm l₂) : mean l₁ = mean l₂ := by
  unfold mean
  rw [h.sum_eq, h.length_eq]

/-- A tab2 summary row is unchanged when the school's rows are permuted. -/
theorem mkTab2Row_perm (k : String) {df df' : List EnvObs} (t : ℚ)
    (h : df.Perm df') : mkTab2Row k df t = mkTab2Row k df' t := by
  unfold mkTab2Row
  rw [mean_perm (h.map _), mean_perm (h.map (·.humidity)),
    mean_perm (h.map (·.ph)), mean_perm (h.map (·.ec))]

/-- A tab3 summary row is unchanged when the school's rows are permuted. -/
theorem mkTab3Row_perm (k : String) {df df' : List GrowthObs} (t : ℚ)
    (h : df.Perm df') : mkTab3Row k df t = mkTab3Row k df' t := by
  unfold mkTab3Row
  rw [mean_perm (h.map _), mean_perm (h.map (·.leaf_count)),
    mean_perm (h.map (·.shoot_length)), h.length_eq]

/-- Right-to-left membership transfer along `List.Forall₂`. -/
theorem forall₂_mem_right {γ δ : Type} {R : γ → δ → Prop} {l₁ : List γ}
    {l₂ : List δ} (h : List.Forall₂ R l₁ l₂) (b : δ) (hb : b ∈ l₂) :
    ∃ a ∈ l₁, R a b := by
  induction h with
  | nil => cases hb
  | cons hr _ ih =>
    rcases List.mem_cons.mp hb with rfl | hb'
    · exact ⟨_, List.mem_cons_self _ _, hr⟩
    · obtain ⟨a, ha, har⟩ := ih hb'
      exact ⟨a, List.mem_cons_of_mem _ ha, har⟩

/-- Left-to-right membership transfer along `List.Forall₂`. -/
theorem forall₂_mem_left {γ δ : Type} {R : γ → δ → Prop} {l₁ : List γ}
    {l₂ : List δ} (h : List.Forall₂ R l₁ l₂) (a : γ) (ha : a ∈ l₁) :
    ∃ b ∈ l₂, R a b := by
  induction h with
  | nil => cases ha
  | cons hr _ ih =>
    rcases List.mem_cons.mp ha with rfl | ha'
    · exact ⟨_, List.mem_cons_self _ _, hr⟩
    · obtain ⟨b, hb, hbr⟩ := ih ha'
      exact ⟨b, List.mem_cons_of_mem _ hb, hbr⟩

/-- Entrywise row permutation leaves the key sequence unchanged. -/
theorem forall₂_keys_eq {β : Type} {l₁ l₂ : List (String × List β)}
    (h : List.Forall₂ GroupPerm l₁ l₂) :
    l₁.map Prod.fst = l₂.map Prod.fst := by
  induction h with
  | nil => rfl
  | cons hr _ ih => simp only [List.map_cons, hr.1, ih]

/-- With unique keys, a key determines its entry's rows. -/
theorem nodup_keys_unique {β : Type} {data : List (String × List β)}
    {k : String} {df df' : List β}
    (hnd : (data.map Prod.fst).Nodup)
    (h1 : (k, df) ∈ data) (h2 : (k, df') ∈ data) : df = df' := by
  induction data with
  | nil => cases h1
  | cons g rest ih =>
    rw [List.map_cons, List.nodup_cons] at hnd
    rcases List.mem_cons.mp h1 with rfl | h1'
    · rcases List.mem_cons.mp h2 with heq | h2'
      · injection heq with heq1 heq2
        exact heq2.symm
      · exact absurd (List.mem_map.mpr ⟨(k, df'), h2', rfl⟩) hnd.1
    · rcases List.mem_cons.mp h2 with rfl | h2'
      · exact absurd (List.mem_map.mpr ⟨(k, df), h1', rfl⟩) hnd.1
      · exact ih hnd.2 h1' h2'

/-- A key that occurs in the dataset occurs with some rows. -/
theorem keys_mem_iff {β : Type} {data : List (String × List β)} {k : String} :
    k ∈ data.map Prod.fst ↔ ∃ df, (k, df) ∈ data := by
  constructor
  · intro h
    obtain ⟨g, hg, hk⟩ := List.mem_map.mp h
    exact ⟨g.2, by rwa [← hk]⟩
  · rintro ⟨df, hdf⟩
    exact List.mem_map.mpr ⟨(k, df), hdf, rfl⟩

/-- `find?` returns the designated element when it is a member satisfying
the predicate and every member satisfying the predicate equals it. -/
theorem find?_eq_some_of_unique {γ : Type} {p : γ → Bool} {l : List γ}
    {a : γ} (ha : a ∈ l) (hpa : p a = true)
    (huniq : ∀ x ∈ l, p x = true → x = a) : l.find? p = some a := by
  induction l with
  | nil => cases ha
  | cons x rest ih =>
    rw [List.find?_cons]
    cases hx : p x
    · apply ih
      · rcases List.mem_cons.mp ha with rfl | ha'
        · rw [hpa] at hx; cases hx
        · exact ha'
      · exact fun y hy hpy => huniq y (List.mem_cons_of_mem _ hy) hpy
    · rw [huniq x (List.mem_cons_self _ _) hx]

/-- A successful `build_rows` run contains the row of every dataset
entry, built from the looked-up concentration. -/
theorem build_rows_ok_mem_of {β ρ : Type} (m : List (String × ℚ))
    (mk : String → List β → ℚ → ρ) (data : List (String × List β))
    (rows : List ρ) (h : build_rows m mk data = Except.ok rows)
    (k : String) (df : List β) (hmem : (k, df) ∈ data) :
    ∃ t, dict_get m k = some t ∧ mk k df t ∈ rows := by
  induction data generalizing rows with
  | nil => cases hmem
  | cons g rest ih =>
    obtain ⟨k', df'⟩ := g
    rw [build_rows_cons] at h
    cases hdi : dict_index m k' with
    | error e =>
      simp only [hdi] at h
      exact Except.noConfusion h
    | ok t =>
      simp only [hdi] at h
      cases hbr : build_rows m mk rest with
      | error e =>
        simp only [hbr] at h
        exact Except.noConfusion h
      | ok rs =>
        simp only [hbr] at h
        injection h with h
        subst h
        rcases List.mem_cons.mp hmem with heq | hmem'
        · injection heq with hk hdf
          subst hk
          subst hdf
          refine ⟨t, ?_, List.mem_cons_self _ _⟩
          unfold dict_index at hdi
          cases hdg : dict_get m k <;> rw [hdg] at hdi
          · cases hdi
          · injection hdi with hdi
            rw [hdi]
        · obtain ⟨t', hg, hmem''⟩ := ih rs hbr hmem'
          exact ⟨t', hg, List.mem_cons_of_mem _ hmem''⟩

/-- Key lemma for C5.  For any row constructor that sets the school field
to the key and is invariant under row permutation, the key-indexed view
of a successful `build_rows` run is unchanged when the dataset's rows are
permuted within each entry and the entries are reordered. -/
theorem build_rows_perm_find {β ρ : Type} (m : List (String × ℚ))
    (mk : String → List β → ℚ → ρ) (sch : ρ → String)
    (hsch : ∀ k df t, sch (mk k df t) = k)
    (hmk : ∀ k df df' t, df.Perm df' → mk k df t = mk k df' t)
    (data₁ mid data₂ : List (String × List β))
    (hnd : (data₁.map Prod.fst).Nodup)
    (hf : List.Forall₂ GroupPerm data₁ mid)
    (hp : mid.Perm data₂)
    (r₁ r₂ : List ρ)
    (h₁ : build_rows m mk data₁ = Except.ok r₁)
    (h₂ : build_rows m mk data₂ = Except.ok r₂)
    (k : String) :
    r₁.find? (fun o => sch o == k) = r₂.find? (fun o => sch o == k) := by
  have hkeys_mid : data₁.map Prod.fst = mid.map Prod.fst := forall₂_keys_eq hf
  have hkeys₂ : (mid.map Prod.fst).Perm (data₂.map Prod.fst) := hp.map _
  have hnd₂ : (data₂.map Prod.fst).Nodup :=
    hkeys₂.nodup_iff.mp (hkeys_mid ▸ hnd)
  by_cases hk : ∃ df, (k, df) ∈ data₁
  · obtain ⟨df₁, hdf₁⟩ := hk
    obtain ⟨b, hbmem, hb1, hb2⟩ := forall₂_mem_left hf (k, df₁) hdf₁
    obtain ⟨bk, bdf⟩ := b
    have hbk : k = bk := hb1
    subst hbk
    have hdf₂ : (k, bdf) ∈ data₂ := hp.subset hbmem
    obtain ⟨t₁, hg₁, hr₁⟩ :=
      build_rows_ok_mem_of m mk data₁ r₁ h₁ k df₁ hdf₁
    obtain ⟨t₂, hg₂, hr₂⟩ :=
      build_rows_ok_mem_of m mk data₂ r₂ h₂ k bdf hdf₂
    have ht : t₂ = t₁ := by
      rw [hg₁] at hg₂
      injection hg₂.symm
    subst ht
    have hfind₁ : r₁.find? (fun o => sch o == k) = some (mk k df₁ t₂) := by
      apply find?_eq_some_of_unique hr₁ (by simp [hsch])
      intro x hx hpx
      obtain ⟨k', df', t', hmem', hg', rfl⟩ :=
        build_rows_ok_mem m mk data₁ r₁ h₁ x hx
      rw [hsch, beq_iff_eq] at hpx
      subst hpx
      rw [nodup_keys_unique hnd hmem' hdf₁]
      rw [hg₁] at hg'
      injection hg' with hg'
      rw [hg']
    have hfind₂ : r₂.find? (fun o => sch o == k) = some (mk k bdf t₂) := by
      apply find?_eq_some_of_unique hr₂ (by simp [hsch])
      intro x hx hpx
      obtain ⟨k', df', t', hmem', hg', rfl⟩ :=
        build_rows_ok_mem m mk data₂ r₂ h₂ x hx
      rw [hsch, beq_iff_eq] at hpx
      subst hpx
      rw [nodup_keys_unique hnd₂ hmem' hdf₂]
      rw [hg₂] at hg'
      injection hg' with hg'
      rw [hg']
    rw [hfind₁, hfind₂, hmk k df₁ bdf t₂ hb2]
  · have hk₂ : ¬∃ df, (k, df) ∈ data₂ := by
      rw [← keys_mem_iff, ← hkeys₂.mem_iff, ← hkeys_mid, keys_mem_iff]
      exact hk
    have hnone₁ : r₁.find? (fun o => sch o == k) = none := by
      rw [List.find?_eq_none]
      intro x hx hpx
      obtain ⟨k', df', t', hmem', _, rfl⟩ :=
        build_rows_ok_mem m mk data₁ r₁ h₁ x hx
      rw [hsch, beq_iff_eq] at hpx
      exact hk ⟨df', hpx ▸ hmem'⟩
    have hnone₂ : r₂.find? (fun o => sch o == k) = none := by
      rw [List.find?_eq_none]
      intro x hx hpx
      obtain ⟨k', df', t', hmem', _, rfl⟩ :=
        build_rows_ok_mem m mk data₂ r₂ h₂ x hx
      rw [hsch, beq_iff_eq] at hpx
      exact hk₂ ⟨df', hpx ▸ hmem'⟩
    rw [hnone₁, hnone₂]

/-- C5.  The per-school mean computations of tab2 (`avg_rows`) and tab3
(`summary`) are invariant under permuting the rows within each group and
reordering the distinct group entries: the mapping from school key to
summary row they produce is identical. -/
theorem group_means_perm_invariant (m : List (String × ℚ))
    (env₁ envm env₂ : List (String × List EnvObs))
    (gr₁ grm gr₂ : List (String × List GrowthObs))
    (hend : (env₁.map Prod.fst).Nodup)
    (hef : List.Forall₂ GroupPerm env₁ envm) (hep : envm.Perm env₂)
    (hgnd : (gr₁.map Prod.fst).Nodup)
    (hgf : List.Forall₂ GroupPerm gr₁ grm) (hgp : grm.Perm gr₂)
    (r₁ r₂ : List Tab2Row) (s₁ s₂ : List Tab3Row)
    (h1 : avg_rows m env₁ = Except.ok r₁)
    (h2 : avg_rows m env₂ = Except.ok r₂)
    (h3 : summary m gr₁ = Except.ok s₁)
    (h4 : summary m gr₂ = Except.ok s₂) :
    (∀ k, r₁.find? (fun o => o.school == k) =
      r₂.find? (fun o => o.school == k)) ∧
    (∀ k, s₁.find? (fun o => o.school == k) =
      s₂.find? (fun o => o.school == k)) :=
  ⟨fun k => build_rows_perm_find m mkTab2Row Tab2Row.school
      (fun _ _ _ => rfl) (fun k' _ _ t h => mkTab2Row_perm k' t h)
      env₁ envm env₂ hend hef hep r₁ r₂ h1 h2 k,
    fun k => build_rows_perm_find m mkTab3Row Tab3Row.school
      (fun _ _ _ => rfl) (fun k' _ _ t h => mkTab3Row_perm k' t h)
      gr₁ grm gr₂ hgnd hgf hgp s₁ s₂ h3 h4 k⟩

/-- Sample growth observation: 20 g, 6 leaves, 200 mm. -/
def grB : GrowthObs := ⟨20, 6, 200⟩

/-- Sample two-school environmental dataset. -/
def perm_env₁ : List (String × List EnvObs) :=
  [("송도고", [envA, envB]), ("하늘고", [envA])]

/-- `perm_env₁` with the first school's rows swapped. -/
def perm_envm : List (String × List EnvObs) :=
  [("송도고", [envB, envA]), ("하늘고", [envA])]

/-- `perm_envm` with the two school entries swapped. -/
def perm_env₂ : List (String × List EnvObs) :=
  [("하늘고", [envA]), ("송도고", [envB, envA])]

/-- Sample two-school growth dataset. -/
def perm_gr₁ : List (String × List GrowthObs) :=
  [("하늘고", [grA, grB]), ("동산고", [grA])]

/-- `perm_gr₁` with the first school's rows swapped. -/
def perm_grm : List (String × List GrowthObs) :=
  [("하늘고", [grB, grA]), ("동산고", [grA])]

/-- `perm_grm` with the two school entries swapped. -/
def perm_gr₂ : List (String × List GrowthObs) :=
  [("동산고", [grA]), ("하늘고", [grB, grA])]

/-- Tab2 summary row of 송도고 in the sample datasets. -/
def t2Song : Tab2Row := ⟨"송도고", 2, 2, 2, 2, 1⟩

/-- Tab2 summary row of 하늘고 in the sample datasets. -/
def t2Ha : Tab2Row := ⟨"하늘고", 1, 1, 1, 1, 2⟩

/-- Tab3 summary row of 하늘고 in the sample datasets. -/
def t3Ha : Tab3Row := ⟨"하늘고", 2, 15, 5, 150, 2⟩

/-- Tab3 summary row of 동산고 in the sample datasets. -/
def t3Dong : Tab3Row := ⟨"동산고", 8, 10, 4, 100, 1⟩

/-- Witness for C5: on concrete permuted datasets, the summaries computed
before and after the permutation index identically by school key. -/
theorem group_means_perm_invariant_witness :
    ([t2Song, t2Ha].find? (fun o => o.school == "송도고") =
      [t2Ha, t2Song].find? (fun o => o.school == "송도고")) ∧
    ([t3Ha, t3Dong].find? (fun o => o.school == "하늘고") =
      [t3Dong, t3Ha].find? (fun o => o.school == "하늘고")) := by
  have h := group_means_perm_invariant EC_MAP
    perm_env₁ perm_envm perm_env₂ perm_gr₁ perm_grm perm_gr₂
    (by simp [perm_env₁])
    (List.Forall₂.cons (show _ ∧ _ from ⟨rfl, by decide⟩)
      (List.Forall₂.cons (show _ ∧ _ from ⟨rfl, by decide⟩) List.Forall₂.nil))
    (by decide)
    (by simp [perm_gr₁])
    (List.Forall₂.cons (show _ ∧ _ from ⟨rfl, by decide⟩)
      (List.Forall₂.cons (show _ ∧ _ from ⟨rfl, by decide⟩) List.Forall₂.nil))
    (by decide)
    [t2Song, t2Ha] [t2Ha, t2Song] [t3Ha, t3Dong] [t3Dong, t3Ha]
    (by simp [avg_rows, build_rows, dict_index, dict_get, EC_MAP, mkTab2Row,
      mean, perm_env₁, t2Song, t2Ha, envA, envB] ; norm_num)
    (by simp [avg_rows, build_rows, dict_index, dict_get, EC_MAP, mkTab2Row,
      mean, perm_env₂, t2Song, t2Ha, envA, envB] ; norm_num)
    (by simp [summary, build_rows, dict_index, dict_get, EC_MAP, mkTab3Row,
      mean, perm_gr₁, t3Ha, t3Dong, grA, grB] ; norm_num)
    (by simp [summary, build_rows, dict_index, dict_get, EC_MAP, mkTab3Row,
      mean, perm_gr₂, t3Ha, t3Dong, grA, grB] ; norm_num)
  exact ⟨h.1 "송도고", h.2 "하늘고"⟩

/-- The extremum direction of the spec's `bestBy`. -/
inductive Direction : Type where
  | max : Direction
  | min : Direction
deriving DecidableEq

/-- Whether a newly scanned value displaces the current best for the
given direction: strictly greater for `max`, strictly less for `min`
(pandas `idxmax`/`idxmin` keep the first occurrence of the extremum). -/
def improves (dir : Direction) (old new : ℚ) : Bool :=
  match dir with
  | .max => decide (old < new)
  | .min => decide (new < old)

/-- One scan step: keep the incumbent unless the new value improves it. -/
def pick_step {ρ : Type} (dir : Direction) (f : ρ → ℚ) (best x : ρ) : ρ :=
  if improves dir (f best) (f x) then x else best

/-- Modelled from the spec: `bestBy(summaryTable, column, direction)`.
The source implements only the max direction — pandas
`summary_df["생중량"].idxmax()` followed by `.loc` (src/main.py line 246,
embedded as `best_row` below); the min direction is the spec's
generalization and appears nowhere in src.  Scans the table keeping the
first row attaining the extremum of `f`; `none` on an empty table
(pandas raises there). -/
def bestBy {ρ : Type} (rows : List ρ) (f : ρ → ℚ) (dir : Direction) :
    Option ρ :=
  match rows with
  | [] => none
  | r :: rest => some (rest.foldl (pick_step dir f) r)

/-- `best_row = summary_df.loc[summary_df["생중량"].idxmax()]`
(src/main.py line 246): the first row of the summary with maximal fresh
weight, `none` when the summary is empty. -/
def best_row (rows : List Tab3Row) : Option Tab3Row :=
  match rows with
  | [] => none
  | r :: rest =>
    some (rest.foldl
      (fun best x => if best.fresh_weight < x.fresh_weight then x else best) r)

/-- The max-direction scan yields a member that bounds every element from
above and is the first element of the list attaining that bound. -/
theorem foldl_max_spec {ρ : Type} (f : ρ → ℚ) (rest : List ρ) (r : ρ) :
    (rest.foldl (pick_step Direction.max f) r) ∈ r :: rest ∧
    (∀ x ∈ r :: rest, f x ≤ f (rest.foldl (pick_step Direction.max f) r)) ∧
    ∃ l₁ l₂, r :: rest = l₁ ++ (rest.foldl (pick_step Direction.max f) r) :: l₂ ∧
      ∀ x ∈ l₁, f x < f (rest.foldl (pick_step Direction.max f) r) := by
  induction rest generalizing r with
  | nil =>
    refine ⟨List.mem_cons_self _ _, ?_, [], [], rfl, ?_⟩
    · intro x hx
      rcases List.mem_cons.mp hx with rfl | hx'
      · exact le_refl _
      · cases hx'
    · intro x hx
      cases hx
  | cons x rest ih =>
    rw [List.foldl_cons]
    by_cases hcmp : f r < f x
    · have hstep : pick_step Direction.max f r x = x := by
        simp [pick_step, improves, hcmp]
      rw [hstep]
      obtain ⟨hmem, hbound, l₁, l₂, hdec, hlt⟩ := ih x
      refine ⟨List.mem_cons_of_mem _ hmem, ?_, r :: l₁, l₂, ?_, ?_⟩
      · intro y hy
        rcases List.mem_cons.mp hy with rfl | hy'
        · exact le_of_lt (lt_of_lt_of_le hcmp (hbound x (List.mem_cons_self _ _)))
        · exact hbound y hy'
      · rw [List.cons_append, ← hdec]
      · intro y hy
        rcases List.mem_cons.mp hy with rfl | hy'
        · exact lt_of_lt_of_le hcmp (hbound x (List.mem_cons_self _ _))
        · exact hlt y hy'
    · have hstep : pick_step Direction.max f r x = r := by
        simp [pick_step, improves, hcmp]
      rw [hstep]
      obtain ⟨hmem, hbound, l₁, l₂, hdec, hlt⟩ := ih r
      have hxr : f x ≤ f r := le_of_not_lt hcmp
      refine ⟨?_, ?_, ?_⟩
      · rcases List.mem_cons.mp hmem with hres | hres
        · rw [hres]
          exact List.mem_cons_self _ _
        · exact List.mem_cons_of_mem _ (List.mem_cons_of_mem _ hres)
      · intro y hy
        rcases List.mem_cons.mp hy with rfl | hy'
        · exact hbound y (List.mem_cons_self _ _)
        · rcases List.mem_cons.mp hy' with rfl | hy''
          · exact le_trans hxr (hbound r (List.mem_cons_self _ _))
          · exact hbound y (List.mem_cons_of_mem _ hy'')
      · cases l₁ with
        | nil =>
          rw [List.nil_append] at hdec
          injection hdec with h1 h2
          refine ⟨[], x :: rest, ?_, ?_⟩
          · rw [List.nil_append, ← h1]
          · intro y hy
            cases hy
        | cons a l₁' =>
          rw [List.cons_append] at hdec
          injection hdec with h1 h2
          refine ⟨r :: x :: l₁', l₂, ?_, ?_⟩
          · rw [List.cons_append, List.cons_append]
            exact congrArg (List.cons r) (congrArg (List.cons x) h2)
          · have hrres : f r < f (rest.foldl (pick_step Direction.max f) r) := by
              have ha := hlt a (List.mem_cons_self _ _)
              rwa [← h1] at ha
            intro y hy
            rcases List.mem_cons.mp hy with rfl | hy'
            · exact hrres
            · rcases List.mem_cons.mp hy' with rfl | hy''
              · exact lt_of_le_of_lt hxr hrres
              · exact hlt y (List.mem_cons_of_mem _ hy'')

/-- The min-direction scan, by reduction to the max-direction scan of the
negated values. -/
theorem foldl_min_spec {ρ : Type} (f : ρ → ℚ) (rest : List ρ) (r : ρ) :
    (rest.foldl (pick_step Direction.min f) r) ∈ r :: rest ∧
    (∀ x ∈ r :: rest, f (rest.foldl (pick_step Direction.min f) r) ≤ f x) ∧
    ∃ l₁ l₂, r :: rest = l₁ ++ (rest.foldl (pick_step Direction.min f) r) :: l₂ ∧
      ∀ x ∈ l₁, f (rest.foldl (pick_step Direction.min f) r) < f x := by
  have hstep : pick_step Direction.min f
      = pick_step Direction.max (fun y => -(f y)) := by
    funext best x
    simp only [pick_step, improves]
    refine if_congr ?_ rfl rfl
    simp only [decide_eq_true_eq]
    constructor <;> intro h <;> linarith
  rw [hstep]
  obtain ⟨hmem, hbound, l₁, l₂, hdec, hlt⟩ :=
    foldl_max_spec (fun y => -(f y)) rest r
  refine ⟨hmem, ?_, l₁, l₂, hdec, ?_⟩
  · intro x hx
    have hb := hbound x hx
    simp only at hb
    linarith
  · intro x hx
    have hb := hlt x hx
    simp only at hb
    linarith

/-- `find?` finds the first element of the middle position when everything
before it fails the predicate and it satisfies the predicate. -/
theorem find?_middle {γ : Type} (p : γ → Bool) (l₁ l₂ : List γ) (a : γ)
    (h₁ : ∀ x ∈ l₁, p x = false) (ha : p a = true) :
    (l₁ ++ a :: l₂).find? p = some a := by
  induction l₁ with
  | nil =>
    rw [List.nil_append, List.find?_cons, ha]
  | cons x rest ih =>
    rw [List.cons_append, List.find?_cons, h₁ x (List.mem_cons_self _ _)]
    exact ih fun y hy => h₁ y (List.mem_cons_of_mem _ hy)

/-- The spec's `bestBy` scenario table: schools A–D with target EC map
{A:1, B:2, C:4, D:8} and mean fresh weights {A:10, B:25, C:15, D:5}
(remaining columns zero). -/
def scenario_summary : List Tab3Row :=
  [⟨"A", 1, 10, 0, 0, 0⟩, ⟨"B", 2, 25, 0, 0, 0⟩,
    ⟨"C", 4, 15, 0, 0, 0⟩, ⟨"D", 8, 5, 0, 0, 0⟩]

/-- C6.  On a non-empty table, `bestBy` with direction max returns a row
of the table whose column value is greater than or equal to every row's
value (dually for min); in either direction the result is the first row
of the table attaining the extremum (the `find?` characterizations);
`best_row` of src/main.py is exactly `bestBy` with max on the fresh
weight column; and on the scenario table it returns school B with
value 25. -/
theorem bestBy_spec {ρ : Type} (rows : List ρ) (f : ρ → ℚ) (h : rows ≠ []) :
    (∃ res, bestBy rows f Direction.max = some res ∧ res ∈ rows ∧
      ∀ x ∈ rows, f x ≤ f res) ∧
    (∃ res, bestBy rows f Direction.min = some res ∧ res ∈ rows ∧
      ∀ x ∈ rows, f res ≤ f x) ∧
    bestBy rows f Direction.max =
      rows.find? (fun x => rows.all fun y => decide (f y ≤ f x)) ∧
    bestBy rows f Direction.min =
      rows.find? (fun x => rows.all fun y => decide (f x ≤ f y)) ∧
    (∀ t3 : List Tab3Row,
      best_row t3 = bestBy t3 (fun o => o.fresh_weight) Direction.max) ∧
    best_row scenario_summary = some ⟨"B", 2, 25, 0, 0, 0⟩ := by
  have hbridge : ∀ t3 : List Tab3Row,
      best_row t3 = bestBy t3 (fun o => o.fresh_weight) Direction.max := by
    intro t3
    cases t3 with
    | nil => rfl
    | cons a l =>
      have hfn : (fun (best x : Tab3Row) =>
          if best.fresh_weight < x.fresh_weight then x else best)
          = pick_step Direction.max (fun o => o.fresh_weight) := by
        funext best x
        simp only [pick_step, improves]
        exact if_congr (Iff.of_eq (decide_eq_true_eq).symm) rfl rfl
      show some _ = some _
      rw [hfn]
  cases rows with
  | nil => exact absurd rfl h
  | cons r rest =>
    obtain ⟨hmem, hbound, l₁, l₂, hdec, hlt⟩ := foldl_max_spec f rest r
    obtain ⟨hmem', hbound', l₁', l₂', hdec', hlt'⟩ := foldl_min_spec f rest r
    rw [hdec] at hbound
    rw [hdec'] at hbound'
    refine ⟨⟨_, rfl, hmem, by rw [hdec]; exact hbound⟩,
      ⟨_, rfl, hmem', by rw [hdec']; exact hbound'⟩, ?_, ?_, hbridge, ?_⟩
    · show some (rest.foldl (pick_step Direction.max f) r) = _
      rw [hdec]
      symm
      apply find?_middle
      · intro x hx
        have hxlt := hlt x hx
        apply List.all_eq_false.mpr
        refine ⟨rest.foldl (pick_step Direction.max f) r,
          List.mem_append_right _ (List.mem_cons_self _ _), ?_⟩
        simp only [decide_eq_true_eq]
        exact not_le.mpr hxlt
      · rw [List.all_eq_true]
        intro y hy
        exact decide_eq_true (hbound y hy)
    · show some (rest.foldl (pick_step Direction.min f) r) = _
      rw [hdec']
      symm
      apply find?_middle
      · intro x hx
        have hxlt := hlt' x hx
        apply List.all_eq_false.mpr
        refine ⟨rest.foldl (pick_step Direction.min f) r,
          List.mem_append_right _ (List.mem_cons_self _ _), ?_⟩
        simp only [decide_eq_true_eq]
        exact not_le.mpr hxlt
      · rw [List.all_eq_true]
        intro y hy
        exact decide_eq_true (hbound' y hy)
    · rw [hbridge scenario_summary]
      decide

/-- Witness for C6: the scenario table is non-empty; `best_row` on it
returns school B with fresh weight 25, and the max-direction `bestBy`
returns a row bounding every fresh weight from above. -/
theorem bestBy_spec_witness :
    best_row scenario_summary = some ⟨"B", 2, 25, 0, 0, 0⟩ ∧
    (∃ res, bestBy scenario_summary (fun o => o.fresh_weight) Direction.max =
      some res ∧ res ∈ scenario_summary ∧
      ∀ x ∈ scenario_summary, x.fresh_weight ≤ res.fresh_weight) := by
  have h := bestBy_spec scenario_summary (fun o => o.fresh_weight)
    (by simp [scenario_summary])
  exact ⟨h.2.2.2.2.2, h.1⟩

/-- Counterexample to C7 as stated.  A growth dataset whose school
"남산고" is absent from `EC_MAP` does not have its row silently dropped
from the tab3 summary: the summary is a key-lookup error (`KeyError` in
the source), so the silent-drop (inner-join) behavior the claim asserts
does not hold. -/
theorem summary_missing_school_errors :
    summary EC_MAP [("남산고", [grA])] = Except.error "남산고" := by
  simp [summary, build_rows, dict_index, dict_get, EC_MAP]

/-- C7 (amended).  Every row of a successful tab3 summary has a school
key present in the growth input and in the concentration map (the
containment half of the claim); but a school missing from the map makes
the whole summary fail with a key-lookup error instead of being silently
dropped. -/
theorem merge_inner_containment (m : List (String × ℚ))
    (growth_data : List (String × List GrowthObs)) :
    (∀ rows, summary m growth_data = Except.ok rows →
      ∀ o ∈ rows, o.school ∈ growth_data.map Prod.fst ∧
        (dict_get m o.school).isSome = true) ∧
    (∀ k df, (k, df) ∈ growth_data → dict_get m k = none →
      ∃ e, summary m growth_data = Except.error e) := by
  constructor
  · intro rows hrows o ho
    obtain ⟨k, df, t, hmem, hg, rfl⟩ :=
      build_rows_ok_mem m mkTab3Row growth_data rows hrows o ho
    constructor
    · exact List.mem_map.mpr ⟨(k, df), hmem, rfl⟩
    · show (dict_get m k).isSome = true
      rw [hg]
      rfl
  · intro k df hmem hnone
    exact build_rows_error m mkTab3Row growth_data k df hmem hnone

/-- Witness for C7 (amended): on a mapped dataset the summary row's
school lies in the input and in `EC_MAP`; on a dataset with the unmapped
school "남산고" the summary is an error. -/
theorem merge_inner_containment_witness :
    (sampleTab3.school ∈ sample_growth.map Prod.fst ∧
      (dict_get EC_MAP sampleTab3.school).isSome = true) ∧
    ∃ e, summary EC_MAP [("남산고", [grA])] = Except.error e := by
  have h := merge_inner_containment EC_MAP sample_growth
  have h2 := merge_inner_containment EC_MAP [("남산고", [grA])]
  exact ⟨h.1 [sampleTab3]
      (by simp [summary, build_rows, dict_index, dict_get, EC_MAP,
        mkTab3Row, mean, sample_growth, sampleTab3, grA])
      sampleTab3 (by simp),
    h2.2 "남산고" [grA] (by simp) (by simp [dict_get, EC_MAP])⟩

/-- Counterexample to C8 as stated.  The tab1 overview also attaches the
target concentration (the `EC 목표` column, via `EC_MAP.get`), and for a
dataset with the unmapped school "남산고" it completes normally with
`none` silently substituted — it does not fail loudly, refuting "in
every operation that attaches the target concentration". -/
theorem overview_silent_none :
    overview_rows EC_MAP [("남산고", [grA])] =
      [{ school := "남산고", ec_target := none, count := 1 }] := by
  simp [overview_rows, dict_get, EC_MAP]

/-- C8 (amended).  When a loaded school is absent from the concentration
map, the tab2 (`avg_rows`) and tab3 (`summary`) computations — which use
the `EC_MAP[school]` subscript — fail loudly with a key-lookup error;
the tab1 overview instead uses `EC_MAP.get(school)` and silently
attaches `none` for that school. -/
theorem ec_attach_fails_loudly (m : List (String × ℚ)) (k : String)
    (df_e : List EnvObs) (df_g : List GrowthObs)
    (env_data : List (String × List EnvObs))
    (growth_data : List (String × List GrowthObs))
    (hnone : dict_get m k = none)
    (he : (k, df_e) ∈ env_data) (hg : (k, df_g) ∈ growth_data) :
    (∃ e, avg_rows m env_data = Except.error e) ∧
    (∃ e, summary m growth_data = Except.error e) ∧
    ∃ row ∈ overview_rows m growth_data,
      row.school = k ∧ row.ec_target = none := by
  refine ⟨build_rows_error m mkTab2Row env_data k df_e he hnone,
    build_rows_error m mkTab3Row growth_data k df_g hg hnone,
    ⟨k, dict_get m k, df_g.length⟩, ?_, rfl, hnone⟩
  exact List.mem_map.mpr ⟨(k, df_g), hg, rfl⟩

/-- Witness for C8 (amended) at the unmapped school "남산고". -/
theorem ec_attach_fails_loudly_witness :
    (∃ e, avg_rows EC_MAP [("남산고", [envA])] = Except.error e) ∧
    (∃ e, summary EC_MAP [("남산고", [grA])] = Except.error e) ∧
    ∃ row ∈ overview_rows EC_MAP [("남산고", [grA])],
      row.school = "남산고" ∧ row.ec_target = none :=
  ec_attach_fails_loudly EC_MAP "남산고" [envA] [grA] _ _
    (by simp [dict_get, EC_MAP]) (by simp) (by simp)

/-- `load_environment_data` (src/main.py lines 87-100): for each logical
file name in order, resolve it against the data directory; on failure
report the name (`st.error(f"파일을 찾을 수 없습니다: {fname}")`,
collected here as the first component) and `continue`; on success read
the frame (`read` stands for `pd.read_csv`) and store it under the
school key (`schoolOf` stands for `fname.split("_")[0]`). -/
def load_environment_data [DecidableEq α] (nfc nfd : α → α)
    (base_dir : List (DirEntry α)) (read : DirEntry α → List EnvObs)
    (schoolOf : α → α) : List α → List α × List (α × List EnvObs)
  | [] => ([], [])
  | fname :: rest =>
    let r := load_environment_data nfc nfd base_dir read schoolOf rest
    match find_file_by_normalized_name nfc nfd base_dir fname with
    | none => (fname :: r.1, r.2)
    | some p => (r.1, (schoolOf fname, read p) :: r.2)

/-- `load_growth_data` (src/main.py lines 102-117): resolve the workbook
name; on failure report and return the empty dict; on success read one
frame per sheet keyed by the sheet name (`sheetsOf` stands for the
`pd.ExcelFile`/`read_excel` loop). -/
def load_growth_data [DecidableEq α] (nfc nfd : α → α)
    (base_dir : List (DirEntry α))
    (sheetsOf : DirEntry α → List (String × List GrowthObs))
    (xlsx_name : α) : List (String × List GrowthObs) :=
  match find_file_by_normalized_name nfc nfd base_dir xlsx_name with
  | none => []
  | some p => sheetsOf p

/-- The top-level stop guard (src/main.py lines 122-124):
`if not env_data or not growth_data: st.error(...); st.stop()`. -/
def app_should_stop {γ δ : Type} (env_data : List γ)
    (growth_data : List δ) : Bool :=
  env_data.isEmpty || growth_data.isEmpty

/-- Unfolding equation for `load_environment_data` on a cons cell. -/
theorem load_env_cons [DecidableEq α] (nfc nfd : α → α)
    (base_dir : List (DirEntry α)) (read : DirEntry α → List EnvObs)
    (schoolOf : α → α) (fname : α) (rest : List α) :
    load_environment_data nfc nfd base_dir read schoolOf (fname :: rest) =
      match find_file_by_normalized_name nfc nfd base_dir fname with
      | none =>
        (fname :: (load_environment_data nfc nfd base_dir read schoolOf rest).1,
          (load_environment_data nfc nfd base_dir read schoolOf rest).2)
      | some p =>
        ((load_environment_data nfc nfd base_dir read schoolOf rest).1,
          (schoolOf fname, read p) ::
            (load_environment_data nfc nfd base_dir read schoolOf rest).2) :=
  rfl

/-- An unresolvable environment file name is reported by the loader. -/
theorem load_env_reports [DecidableEq α] (nfc nfd : α → α)
    (base_dir : List (DirEntry α)) (read : DirEntry α → List EnvObs)
    (schoolOf : α → α) (env_files : List α) (fname : α)
    (h₁ : fname ∈ env_files)
    (h₂ : find_file_by_normalized_name nfc nfd base_dir fname = none) :
    fname ∈ (load_environment_data nfc nfd base_dir read schoolOf env_files).1 := by
  induction env_files with
  | nil => cases h₁
  | cons g rest ih =>
    rw [load_env_cons]
    rcases List.mem_cons.mp h₁ with rfl | h₁'
    · rw [h₂]
      exact List.mem_cons_self _ _
    · cases hf : find_file_by_normalized_name nfc nfd base_dir g with
      | none => exact List.mem_cons_of_mem _ (ih h₁')
      | some p => exact ih h₁'

/-- Every frame the environment loader stores comes from a file name that
resolved successfully: no frame is derived from an unresolved file. -/
theorem load_env_sound [DecidableEq α] (nfc nfd : α → α)
    (base_dir : List (DirEntry α)) (read : DirEntry α → List EnvObs)
    (schoolOf : α → α) (env_files : List α) (s : α) (df : List EnvObs)
    (h : (s, df) ∈ (load_environment_data nfc nfd base_dir read schoolOf env_files).2) :
    ∃ f p, f ∈ env_files ∧
      find_file_by_normalized_name nfc nfd base_dir f = some p ∧
      s = schoolOf f ∧ df = read p := by
  induction env_files with
  | nil => cases h
  | cons g rest ih =>
    rw [load_env_cons] at h
    cases hf : find_file_by_normalized_name nfc nfd base_dir g with
    | none =>
      rw [hf] at h
      obtain ⟨f, p, hmem, hfind, hs, hdf⟩ := ih h
      exact ⟨f, p, List.mem_cons_of_mem _ hmem, hfind, hs, hdf⟩
    | some p =>
      rw [hf] at h
      rcases List.mem_cons.mp h with heq | h'
      · injection heq with hs hdf
        exact ⟨g, p, List.mem_cons_self _ _, hf, hs, hdf⟩
      · obtain ⟨f, p', hmem, hfind, hs, hdf⟩ := ih h'
        exact ⟨f, p', List.mem_cons_of_mem _ hmem, hfind, hs, hdf⟩

/-- C9.  A file-resolution failure is non-fatal to the resolver (it is
the normal `none` return handled by the loader); the loader reports the
logical name it could not locate and no stored frame derives from an
unresolved file; and an unresolved growth workbook leaves the growth
data empty, which trips the top-level stop guard so no dependent
computation proceeds. -/
theorem load_missing_file_handling [DecidableEq α] (nfc nfd : α → α)
    (base_dir : List (DirEntry α)) (read : DirEntry α → List EnvObs)
    (schoolOf : α → α) (env_files : List α) (fname : α)
    (sheetsOf : DirEntry α → List (String × List GrowthObs)) (xlsx_name : α)
    (h₁ : fname ∈ env_files)
    (h₂ : find_file_by_normalized_name nfc nfd base_dir fname = none) :
    fname ∈ (load_environment_data nfc nfd base_dir read schoolOf env_files).1 ∧
    (∀ s df,
      (s, df) ∈ (load_environment_data nfc nfd base_dir read schoolOf env_files).2 →
      ∃ f p, f ∈ env_files ∧
        find_file_by_normalized_name nfc nfd base_dir f = some p ∧
        s = schoolOf f ∧ df = read p) ∧
    (find_file_by_normalized_name nfc nfd base_dir xlsx_name = none →
      load_growth_data nfc nfd base_dir sheetsOf xlsx_name = [] ∧
      ∀ env : List (α × List EnvObs),
        app_should_stop env (load_growth_data nfc nfd base_dir sheetsOf xlsx_name) = true) := by
  refine ⟨load_env_reports nfc nfd base_dir read schoolOf env_files fname h₁ h₂,
    fun s df hm => load_env_sound nfc nfd base_dir read schoolOf env_files s df hm,
    fun hx => ?_⟩
  have hempty : load_growth_data nfc nfd base_dir sheetsOf xlsx_name = [] := by
    unfold load_growth_data
    rw [hx]
  refine ⟨hempty, fun env => ?_⟩
  rw [hempty]
  simp [app_should_stop]

/-- Directory for the C9 witness: only the decomposed spelling of
`sampleName` exists. -/
def c9_dir : List (DirEntry TStr) := [⟨nfdToy sampleName, true⟩]

/-- A logical name with no match in `c9_dir`. -/
def missingName : TStr := [.ch 1]

/-- The environment file list of the C9 witness. -/
def c9_files : List TStr := [sampleName, missingName]

/-- Stand-in CSV reader for the C9 witness. -/
def c9_read : DirEntry TStr → List EnvObs := fun _ => [envA]

/-- Stand-in for `fname.split("_")[0]` in the C9 witness. -/
def c9_schoolOf : TStr → TStr := fun n => n

/-- Stand-in workbook reader for the C9 witness. -/
def c9_sheets : DirEntry TStr → List (String × List GrowthObs) :=
  fun _ => [("하늘고", [grA])]

/-- An unresolvable workbook name for the C9 witness. -/
def c9_xlsx : TStr := [.ch 2]

/-- Witness for C9: with one resolvable and one unresolvable environment
file and an unresolvable workbook, the loader reports the missing name,
the growth data is empty, and the top-level guard stops the app. -/
theorem load_missing_file_handling_witness :
    missingName ∈
      (load_environment_data nfcToy nfdToy c9_dir c9_read c9_schoolOf c9_files).1 ∧
    load_growth_data nfcToy nfdToy c9_dir c9_sheets c9_xlsx = [] ∧
    app_should_stop ([] : List (TStr × List EnvObs))
      (load_growth_data nfcToy nfdToy c9_dir c9_sheets c9_xlsx) = true := by
  have h := load_missing_file_handling nfcToy nfdToy c9_dir c9_read c9_schoolOf
    c9_files missingName c9_sheets c9_xlsx (by decide) (by decide)
  have hc := h.2.2 (by decide)
  exact ⟨h.1, hc.1, hc.2 []⟩

end Dashboard
